import Mathlib

namespace DailyNews

/-!
Shallow embedding of the YouTube scraper module
(`app/scrapers/youtube_scraper.py`) and of the transcript service
(`app/services/youtube.py`) of the repository.

Modelling conventions:
- Python strings are `String`, with the character-level helpers below
  operating on `List Char` (`String.data`).
- Network and provider effects are passed in as explicit oracle
  functions (`page`, `fetch`, `provider`); a `none` / `Except.error`
  oracle answer stands for the corresponding Python exception.
- Pydantic model construction is fallible (`Except ValErr _`): passing
  `None` for a required `str` field raises a validation error.
- Timestamps are kept as opaque strings (`published_at : Option String`);
  no claim depends on date parsing.
- Functions that the source performs as side effects (HTTP requests)
  additionally return the list of requests issued, so that claims about
  the number of outbound calls are provable rather than asserted.
-/

/-! Character-level helpers mirroring the Python string operations used
by the scraper: `in`, `str.split`, `str.rstrip`, `"\n".join`. -/

def isWordChar (c : Char) : Bool :=
  c.isAlpha || c.isDigit || c == '_' || c == '-'

def consHead (c : Char) : List (List Char) → List (List Char)
  | [] => [[c]]
  | x :: xs => (c :: x) :: xs

/-- Embedding of Python `s.split(a)` for a single-character separator. -/
def splitChar (a : Char) : List Char → List (List Char)
  | [] => [[]]
  | c :: rest => if c == a then [] :: splitChar a rest else consHead c (splitChar a rest)

/-- Embedding of Python `s.split("v=")` (two-character separator, scanned
left to right, first match at each position consumed). -/
def splitVEq : List Char → List (List Char)
  | [] => [[]]
  | [c] => [[c]]
  | c :: d :: rest =>
    if c == 'v' && d == '=' then [] :: splitVEq rest
    else consHead c (splitVEq (d :: rest))

/-- Embedding of Python `"v=" in s`. -/
def containsVEq : List Char → Bool
  | [] => false
  | [_] => false
  | c :: d :: rest => (c == 'v' && d == '=') || containsVEq (d :: rest)

/-- Embedding of Python `s.rstrip("/")`. -/
def rstripSlash (l : List Char) : List Char :=
  (l.reverse.dropWhile (fun c => c == '/')).reverse

/-- Embedding of Python `"\n".join(xs)` at the character level. -/
def joinNlL : List (List Char) → List Char
  | [] => []
  | [x] => x
  | x :: y :: xs => x ++ '\n' :: joinNlL (y :: xs)

def joinNl (xs : List String) : String := String.mk (joinNlL (xs.map String.data))

def strEmpty : String := ""

/-! Data model: pydantic `ChannelVideo` and `Transcript`, and the
duck-typed feedparser entry (every field access may yield `None`). -/

structure ChannelVideo where
  title : String
  url : String
  video_id : String
  published_at : Option String
  description : Option String
deriving DecidableEq

structure Transcript where
  text : String
deriving DecidableEq

structure FeedEntry where
  yt_videoid : Option String
  link : Option String
  title : Option String
  published : Option String
  summary : Option String
deriving DecidableEq

/-- Pydantic validation failure: a required `str` field received `None`. -/
inductive ValErr
  | missingTitle
  | missingVideoId
deriving DecidableEq

/-- Pydantic constructor for `ChannelVideo`: `title` and `video_id` are
required `str` fields, so a `none` there raises a validation error. -/
def channelVideoOfFields (title : Option String) (url : String) (video_id : Option String)
    (published_at : Option String) (description : Option String) :
    Except ValErr ChannelVideo :=
  match title, video_id with
  | some t, some v => Except.ok ⟨t, url, v, published_at, description⟩
  | none, _ => Except.error ValErr.missingTitle
  | some _, none => Except.error ValErr.missingVideoId

/-! The scraper functions (`YouTubeScraper` static methods). -/

/-- Embedding of `YouTubeScraper._extract_video_id_from_link` on
character lists: `link.split("v=")[-1].split("&")[0]` when `"v="` occurs
anywhere in the link, else the final path segment of the rstripped link,
else `None` for an empty link. -/
def extract_video_id_from_link_l (link : List Char) : Option (List Char) :=
  if containsVEq link then
    some (List.headD (splitChar '&' ((splitVEq link).getLastD [])) [])
  else if link = [] then none
  else some ((splitChar '/' (rstripSlash link)).getLastD [])

def extract_video_id_from_link (link : String) : Option String :=
  (extract_video_id_from_link_l link.data).map String.mk

/-- Embedding of `YouTubeScraper._parse_entry_to_video`.  Note the Python
truthiness test `if not video_id`: both a missing field and an empty
string trigger the link-derivation fallback. -/
def parse_entry_to_video (e : FeedEntry) : Except ValErr ChannelVideo :=
  let link := e.link.getD strEmpty
  let vid := match e.yt_videoid with
    | some s => if s = strEmpty then extract_video_id_from_link link else some s
    | none => extract_video_id_from_link link
  channelVideoOfFields e.title link vid e.published e.summary

/-- Left-to-right fallible map: the embedding of a Python list
comprehension over a fallible body (the first raise propagates). -/
def mapME {α β ε : Type} (f : α → Except ε β) : List α → Except ε (List β)
  | [] => Except.ok []
  | a :: l =>
    match f a with
    | Except.error e => Except.error e
    | Except.ok b =>
      match mapME f l with
      | Except.error e => Except.error e
      | Except.ok bs => Except.ok (b :: bs)

inductive ScrapeErr
  | requestError
  | validationError (e : ValErr)
deriving DecidableEq

/-- Embedding of `YouTubeScraper.fetch_channel_feed`.  The HTTP request
plus feedparser step is the oracle `http`: `Except.error` is a raised
`requests.RequestException` (propagated), `Except.ok entries` is the
parsed entry list (feedparser never raises; an unparseable document
yields an empty entry list). -/
def fetch_channel_feed (http : Except Unit (List FeedEntry)) (max_results : Nat) :
    Except ScrapeErr (List ChannelVideo) :=
  match http with
  | Except.error _ => Except.error ScrapeErr.requestError
  | Except.ok entries =>
    match mapME parse_entry_to_video (entries.take max_results) with
    | Except.ok vs => Except.ok vs
    | Except.error e => Except.error (ScrapeErr.validationError e)

/-- Embedding of `YouTubeScraper.get_latest_videos`: every per-channel
failure (both `except` arms) is swallowed and the channel skipped. -/
def get_latest_videos (fetch : String → Except ScrapeErr (List ChannelVideo)) :
    List String → List ChannelVideo
  | [] => []
  | c :: cs =>
    (match fetch c with
     | Except.ok vs => vs
     | Except.error _ => []) ++ get_latest_videos fetch cs

/-- The exceptions the transcript provider can raise, mirroring the two
`except` arms of `get_transcript` (the three named provider exceptions,
and the catch-all for anything else). -/
inductive TxErr
  | transcriptsDisabled
  | noTranscriptFound
  | videoUnavailable
  | otherError
deriving DecidableEq

/-- Embedding of `YouTubeScraper.get_transcript`: the provider oracle
returns the fetched snippet texts in provider order, or raises; every
exception is converted to `None`. -/
def get_transcript (provider : String → Except TxErr (List String)) (video_id : String) :
    Option Transcript :=
  match provider video_id with
  | Except.ok snippets => some ⟨joinNl snippets⟩
  | Except.error _ => none

/-- Wrapper recording that a call to `get_transcript` (and hence to the
provider) was issued for the given video id. -/
def get_transcript_logged (provider : String → Except TxErr (List String)) (video_id : String) :
    Option Transcript × List String :=
  (get_transcript provider video_id, [video_id])

/-- The pairing comprehension of `YouTubeScraper.get_videos_with_transcripts`:
one transcript fetch per video, unconditionally. -/
def pair_with_transcripts (provider : String → Except TxErr (List String)) :
    List ChannelVideo → List (ChannelVideo × Option Transcript) × List String
  | [] => ([], [])
  | v :: vs =>
    let r := get_transcript_logged provider v.video_id
    let rest := pair_with_transcripts provider vs
    ((v, r.1) :: rest.1, r.2 ++ rest.2)

/-- Embedding of `YouTubeScraper.get_videos_with_transcripts`; the second
component is the list of video ids for which a transcript fetch was
issued. -/
def get_videos_with_transcripts (fetch : String → Except ScrapeErr (List ChannelVideo))
    (provider : String → Except TxErr (List String)) (channel_ids : List String) :
    List (ChannelVideo × Option Transcript) × List String :=
  pair_with_transcripts provider (get_latest_videos fetch channel_ids)

/-- The guarded pairing loop of the service-layer `get_video_transcripts`
(`app/services/youtube.py`): `get_transcript(video_id) if video_id else None`. -/
def service_pair (provider : String → Except TxErr (List String)) :
    List ChannelVideo → List (ChannelVideo × Option Transcript) × List String
  | [] => ([], [])
  | v :: vs =>
    let rest := service_pair provider vs
    if v.video_id = strEmpty then ((v, none) :: rest.1, rest.2)
    else
      let r := get_transcript_logged provider v.video_id
      ((v, r.1) :: rest.1, r.2 ++ rest.2)

/-- Embedding of the service-layer `get_video_transcripts`. -/
def get_video_transcripts (fetch : String → Except ScrapeErr (List ChannelVideo))
    (provider : String → Except TxErr (List String)) (channel_ids : List String) :
    List (ChannelVideo × Option Transcript) × List String :=
  service_pair provider (get_latest_videos fetch channel_ids)

/-! Transcript fetching with language fallback (spec section 4.3). -/

structure CaptionTrack where
  language : String
  translatable : Bool
  segments : List String
deriving DecidableEq

/-- Try the preferred language codes in caller order; for each, return
the first track the provider lists for that language. -/
def findPreferredTrack (tracks : List CaptionTrack) : List String → Option CaptionTrack
  | [] => none
  | l :: ls =>
    match tracks.find? (fun t => t.language == l) with
    | some t => some t
    | none => findPreferredTrack tracks ls

/-- Modelled from the spec: the module-level `get_transcript(video_id,
languages=...)` with language fallback, imported by
`app/services/youtube.py` (`get_single_transcript`), is not present in
the scraper module under `src/`.  Following the spec's words: attempt
the caller-ordered preferred languages in order and return the first
track found, its text being the caption segments joined by single
newlines; if no preferred language has a track, fall back to the first
translation-eligible track; any provider error degrades to absent. -/
def fetchTranscript (listing : Except TxErr (List CaptionTrack)) (languages : List String) :
    Option String :=
  match listing with
  | Except.error _ => none
  | Except.ok tracks =>
    match findPreferredTrack tracks languages with
    | some t => some (joinNl t.segments)
    | none =>
      match tracks.find? (fun t => t.translatable) with
      | some t => some (joinNl t.segments)
      | none => none

/-! Channel-reference resolution (`get_channel_id_from_url` and its
helpers).  The regular expressions of the source are literal
alternations followed by a captured run of `[a-zA-Z0-9_-]` characters;
they are embedded as explicit first-match scanners. -/

/-- Match a literal at the head of the list, returning the remainder. -/
def stripPre : List Char → List Char → Option (List Char)
  | [], s => some s
  | _ :: _, [] => none
  | a :: p, b :: s => if a = b then stripPre p s else none

def browseLitS : String := "\"browseId\":\"UC"
def browseLit : List Char := browseLitS.data

/-- One attempted match of `BROWSE_ID_PATTERN` at the current position:
the literal `"browseId":"` followed by the captured `UC[a-zA-Z0-9_-]+`
and the closing quote. -/
def tryBrowseAt (s : List Char) : Option (List Char) :=
  match stripPre browseLit s with
  | none => none
  | some rest =>
    let run := rest.takeWhile isWordChar
    if run ≠ [] ∧ (rest.dropWhile isWordChar).headD ' ' = '"' then some ('U' :: 'C' :: run)
    else none

/-- Embedding of `re.search` for `BROWSE_ID_PATTERN`: first position
where the whole pattern matches wins. -/
def browseScan : List Char → Option (List Char)
  | [] => none
  | c :: rest =>
    match tryBrowseAt (c :: rest) with
    | some cap => some cap
    | none => browseScan rest

/-- Embedding of `_extract_from_pattern(content, BROWSE_ID_PATTERN)`. -/
def extract_browse_id (content : String) : Option String :=
  (browseScan content.data).map String.mk

def baseAt : String := "https://www.youtube.com/@"
def baseC : String := "https://www.youtube.com/c/"

/-- Embedding of `YouTubeScraper._fetch_channel_page`: the `page` oracle
answers `none` exactly when `requests` raises (the `except` arm returns
`None`). -/
def fetch_channel_page (page : String → Option String) (url : String) : Option String :=
  page url

/-- Embedding of `YouTubeScraper._resolve_username_to_channel_id`.  The
second component is the list of page URLs fetched.  Note the Python
truthiness of the walrus test: an empty page body also falls through to
`None`. -/
def resolve_username_to_channel_id (page : String → Option String) (username : String) :
    Option String × List String :=
  (match fetch_channel_page page (baseAt ++ username) with
   | some content => if content = strEmpty then none else extract_browse_id content
   | none => none,
   [baseAt ++ username])

/-- Embedding of `YouTubeScraper._resolve_custom_url_to_channel_id`. -/
def resolve_custom_url_to_channel_id (page : String → Option String) (custom_url : String) :
    Option String × List String :=
  (match fetch_channel_page page (baseC ++ custom_url) with
   | some content => if content = strEmpty then none else extract_browse_id content
   | none => none,
   [baseC ++ custom_url])

/-- One attempted match at the current position for the URL patterns:
a literal alternative followed by a captured nonempty word-character
run. -/
def tryCapAt (lit : List Char) (s : List Char) : Option (List Char) :=
  match stripPre lit s with
  | none => none
  | some rest =>
    match rest.takeWhile isWordChar with
    | [] => none
    | r :: rs => some (r :: rs)

/-- Embedding of `re.search` for the two-alternative URL patterns. -/
def searchCap2 (litA litB : List Char) : List Char → Option (List Char)
  | [] => none
  | c :: rest =>
    match tryCapAt litA (c :: rest) with
    | some run => some run
    | none =>
      match tryCapAt litB (c :: rest) with
      | some run => some run
      | none => searchCap2 litA litB rest

def litChannelA : String := "youtube.com/channel/"
def litChannelB : String := "youtu.be/channel/"
def litAtA : String := "youtube.com/@"
def litAtB : String := "youtu.be/@"
def litCA : String := "youtube.com/c/"
def litCB : String := "youtu.be/c/"
def litUserA : String := "youtube.com/user/"
def litUserB : String := "youtu.be/user/"

def search_channel_id (u : List Char) : Option (List Char) :=
  searchCap2 litChannelA.data litChannelB.data u

def search_handle (u : List Char) : Option (List Char) :=
  searchCap2 litAtA.data litAtB.data u

def search_custom (u : List Char) : Option (List Char) :=
  searchCap2 litCA.data litCB.data u

def search_user (u : List Char) : Option (List Char) :=
  searchCap2 litUserA.data litUserB.data u

/-- Embedding of `YouTubeScraper.get_channel_id_from_url`: shapes tried
in the source's fixed priority order; the second component is the list
of page URLs fetched. -/
def get_channel_id_from_url (page : String → Option String) (url : String) :
    Option String × List String :=
  let u := rstripSlash url.data
  match search_channel_id u with
  | some cid => (some (String.mk cid), [])
  | none =>
    match search_handle u with
    | some name => resolve_username_to_channel_id page (String.mk name)
    | none =>
      match search_custom u with
      | some cname => resolve_custom_url_to_channel_id page (String.mk cname)
      | none =>
        match search_user u with
        | some name => resolve_username_to_channel_id page (String.mk name)
        | none => (none, [])

/-! Spec-side reading of the video-id derivation, for comparison with
the source's substring-based one. -/

/-- Query string of a link: everything after the first question mark. -/
def afterFirstQm : List Char → Option (List Char)
  | [] => none
  | '?' :: r => some r
  | _ :: r => afterFirstQm r

/-- First query parameter whose key is exactly `v`. -/
def vParamOf : List (List Char) → Option (List Char)
  | [] => none
  | p :: ps =>
    match p with
    | 'v' :: '=' :: val => some val
    | _ => vParamOf ps

/-- Modelled from the spec's words for the video-id derivation: the
value of the link's `v=` query parameter (a true query parameter, i.e. a
`&`-separated `key=value` item of the part after `?` with key exactly
`v`) when such a parameter exists, and otherwise the final path segment
of the link.  Used only to compare the claimed behaviour with the
source's substring-based extraction. -/
def specClaimExtract (link : List Char) : Option (List Char) :=
  match afterFirstQm link with
  | some q =>
    match vParamOf (splitChar '&' q) with
    | some val => some val
    | none => if link = [] then none else some ((splitChar '/' (rstripSlash link)).getLastD [])
  | none => if link = [] then none else some ((splitChar '/' (rstripSlash link)).getLastD [])

/-! Concrete inputs used by the example theorems and witnesses. -/

def exWatchLink : String := "https://www.youtube.com/watch?v=XYZ&foo=bar"
def exXYZ : String := "XYZ"
def cexLink : String := "https://youtube.com/abc?rev=7"
def cexCode : String := "7"
def langEn : String := "en"
def langEs : String := "es"
def segHola : String := "hola"
def segMundo : String := "mundo"
def esJoined : String := "hola\nmundo"
def exTitle : String := "Latest headlines"
def exUrlA : String := "https://www.youtube.com/watch?a=1"
def exVidA : String := "vid-a"
def chanA : String := "UCchannelA"

def trackEs : CaptionTrack := ⟨langEs, true, [segHola, segMundo]⟩

def videoNoId : ChannelVideo := ⟨exTitle, strEmpty, strEmpty, none, none⟩

def videoA : ChannelVideo := ⟨exTitle, exUrlA, exVidA, none, none⟩

def entryEmptyLink : FeedEntry := ⟨none, some strEmpty, some exTitle, none, none⟩

def entryA : FeedEntry := ⟨some exVidA, some exUrlA, some exTitle, none, none⟩

def fetchOneNoId : String → Except ScrapeErr (List ChannelVideo) := fun _ => Except.ok [videoNoId]

def fetchMixed : String → Except ScrapeErr (List ChannelVideo) :=
  fun _ => Except.ok [videoNoId, videoA]

def providerUnavailable : String → Except TxErr (List String) :=
  fun _ => Except.error TxErr.videoUnavailable

def providerEmptyList : String → Except TxErr (List String) := fun _ => Except.ok []

def pageFails : String → Option String := fun _ => none

def chanB : String := "UCchannelB"

def fetchFailA : String → Except ScrapeErr (List ChannelVideo) :=
  fun c => if c = chanA then Except.error ScrapeErr.requestError else Except.ok [videoA]

def providerHolaMundo : String → Except TxErr (List String) :=
  fun _ => Except.ok [segHola, segMundo]

def cexSpec : String := "abc?rev=7"

def linkPartA : String := "https://www.youtube.com/watch?"

def linkPartB : String := "XYZ&foo=bar"

def handleName : String := "newsdesk"

def handleUrl : String := "https://www.youtube.com/@newsdesk"

def pageBody : String := "pre \"browseId\":\"UCnews7\" post"

def pageUC : String → Option String := fun _ => some pageBody

def ucIdNews : String := "UCnews7"

def ucLog : List String := ["https://www.youtube.com/@newsdesk"]

def chanUrlPlain : String := "https://youtube.com/channel/abc_123"

def plainId : String := "abc_123"

/-! Sanity checks that the embedding computes as the source does on
small inputs. -/

example : extract_video_id_from_link exWatchLink = some exXYZ := by decide
example : extract_video_id_from_link cexLink = some cexCode := by decide
example : extract_video_id_from_link strEmpty = none := by decide
example : parse_entry_to_video entryA = Except.ok videoA := rfl
example : joinNl [segHola, segMundo] = esJoined := by decide
example : extract_browse_id strEmpty = none := by decide

/-! General lemmas about the embedding. -/

theorem get_latest_videos_append (fetch : String → Except ScrapeErr (List ChannelVideo))
    (xs ys : List String) :
    get_latest_videos fetch (xs ++ ys) =
      get_latest_videos fetch xs ++ get_latest_videos fetch ys := by
  induction xs with
  | nil => simp [get_latest_videos]
  | cons c cs ih => simp [get_latest_videos, ih]

theorem joinNlL_mem_length_le (xs : List (List Char)) (x : List Char) (hx : x ∈ xs) :
    x.length ≤ (joinNlL xs).length := by
  induction xs with
  | nil => cases hx
  | cons y ys ih =>
    rcases List.mem_cons.mp hx with h | h
    · subst h
      cases ys with
      | nil => simp [joinNlL]
      | cons z zs =>
        simp only [joinNlL, List.length_append, List.length_cons]
        omega
    · have hle := ih h
      cases ys with
      | nil => cases h
      | cons z zs =>
        simp only [joinNlL, List.length_append, List.length_cons]
        omega

theorem joinNlL_eq_nil_iff (xs : List (List Char)) :
    joinNlL xs = [] ↔ xs = [] ∨ xs = [[]] := by
  cases xs with
  | nil => simp [joinNlL]
  | cons x ys =>
    cases ys with
    | nil => simp [joinNlL]
    | cons y zs =>
      simp only [joinNlL]
      constructor
      · intro h
        exact absurd h (by simp)
      · intro h
        rcases h with h | h <;> simp at h

theorem joinNl_eq_empty_iff (snips : List String) :
    joinNl snips = strEmpty ↔ snips = [] ∨ snips = [strEmpty] := by
  constructor
  · intro h
    have hd : joinNlL (snips.map String.data) = [] := congrArg String.data h
    rcases (joinNlL_eq_nil_iff (snips.map String.data)).mp hd with hm | hm
    · left
      exact List.map_eq_nil_iff.mp hm
    · right
      cases snips with
      | nil => simp at hm
      | cons s rest =>
        cases rest with
        | nil =>
          simp only [List.map_cons, List.map_nil] at hm
          injection hm with h1 _
          cases s with
          | mk d =>
            have h2 : d = [] := h1
            subst h2
            rfl
        | cons t ts => simp at hm
  · intro h
    rcases h with h | h <;> subst h <;> rfl

theorem service_pair_guard (provider : String → Except TxErr (List String))
    (vs : List ChannelVideo) :
    (∀ v p, (v, p) ∈ (service_pair provider vs).1 → v.video_id = strEmpty → p = none) ∧
    (∀ c, c ∈ (service_pair provider vs).2 → c ≠ strEmpty) := by
  induction vs with
  | nil => simp [service_pair]
  | cons v vs ih =>
    by_cases h : v.video_id = strEmpty
    · refine ⟨?_, ?_⟩
      · intro v' p hmem hid
        simp only [service_pair, if_pos h] at hmem
        rcases List.mem_cons.mp hmem with heq | hmem
        · exact congrArg Prod.snd heq
        · exact ih.1 v' p hmem hid
      · intro c hc
        simp only [service_pair, if_pos h] at hc
        exact ih.2 c hc
    · refine ⟨?_, ?_⟩
      · intro v' p hmem hid
        simp only [service_pair, if_neg h] at hmem
        rcases List.mem_cons.mp hmem with heq | hmem
        · exfalso
          have hv : v' = v := congrArg Prod.fst heq
          exact h (hv ▸ hid)
        · exact ih.1 v' p hmem hid
      · intro c hc
        simp only [service_pair, if_neg h, get_transcript_logged, List.singleton_append] at hc
        rcases List.mem_cons.mp hc with heq | hc
        · exact heq ▸ h
        · exact ih.2 c hc

theorem pair_with_transcripts_log (provider : String → Except TxErr (List String))
    (vs : List ChannelVideo) :
    (pair_with_transcripts provider vs).2 = vs.map (fun v => v.video_id) := by
  induction vs with
  | nil => simp [pair_with_transcripts]
  | cons v vs ih => simp [pair_with_transcripts, get_transcript_logged, ih]

theorem findPreferredTrack_first (tracks : List CaptionTrack) (pre : List String) (l : String)
    (post : List String) (t : CaptionTrack)
    (hpre : ∀ l', l' ∈ pre → tracks.find? (fun tr => tr.language == l') = none)
    (hl : tracks.find? (fun tr => tr.language == l) = some t) :
    findPreferredTrack tracks (pre ++ l :: post) = some t := by
  induction pre with
  | nil => simp [findPreferredTrack, hl]
  | cons l' pre' ih =>
    have h' := hpre l' (List.mem_cons_self _ _)
    simp only [List.cons_append, findPreferredTrack, h']
    exact ih (fun x hx => hpre x (List.mem_cons_of_mem _ hx))

theorem findPreferredTrack_none (tracks : List CaptionTrack) (langs : List String)
    (h : ∀ l, l ∈ langs → tracks.find? (fun tr => tr.language == l) = none) :
    findPreferredTrack tracks langs = none := by
  induction langs with
  | nil => rfl
  | cons l ls ih =>
    have h' := h l (List.mem_cons_self _ _)
    simp only [findPreferredTrack, h']
    exact ih (fun x hx => h x (List.mem_cons_of_mem _ hx))

theorem mapME_ok {α β ε : Type} (f : α → Except ε β) :
    ∀ (l : List α) (bs : List β), mapME f l = Except.ok bs →
      bs.length = l.length ∧
      ∀ i (h1 : i < l.length) (h2 : i < bs.length),
        f (l.get ⟨i, h1⟩) = Except.ok (bs.get ⟨i, h2⟩) := by
  intro l
  induction l with
  | nil =>
    intro bs h
    simp only [mapME] at h
    cases h
    exact ⟨rfl, fun i h1 _ => absurd h1 (Nat.not_lt_zero i)⟩
  | cons a l ih =>
    intro bs h
    cases hfa : f a with
    | error e =>
      simp only [mapME, hfa] at h
      exact Except.noConfusion h
    | ok b =>
      cases hrec : mapME f l with
      | error e =>
        simp only [mapME, hfa, hrec] at h
        exact Except.noConfusion h
      | ok bs' =>
        simp only [mapME, hfa, hrec] at h
        injection h with hb
        subst hb
        obtain ⟨hlen, hget⟩ := ih bs' hrec
        refine ⟨by simp [hlen], ?_⟩
        intro i h1 h2
        cases i with
        | zero => simpa using hfa
        | succ j =>
          simp only [List.get_cons_succ]
          exact hget j (Nat.lt_of_succ_lt_succ h1) (Nat.lt_of_succ_lt_succ h2)

theorem take_get {α : Type} : ∀ (l : List α) (n i : Nat) (h1 : i < (l.take n).length)
    (h2 : i < l.length), (l.take n).get ⟨i, h1⟩ = l.get ⟨i, h2⟩ := by
  intro l
  induction l with
  | nil => intro n i h1 h2; cases h2
  | cons a l ih =>
    intro n i h1 h2
    cases n with
    | zero => simp at h1
    | succ m =>
      cases i with
      | zero => rfl
      | succ j =>
        simp only [List.take_succ_cons, List.get_cons_succ]
        exact ih m j _ (Nat.lt_of_succ_lt_succ h2)

/-! Lemmas about the split-based video-id extraction. -/

theorem consHead_ne_nil (c : Char) (L : List (List Char)) : consHead c L ≠ [] := by
  cases L <;> simp [consHead]

theorem consHead_length (c : Char) (L : List (List Char)) (h : L ≠ []) :
    (consHead c L).length = L.length := by
  cases L with
  | nil => exact absurd rfl h
  | cons x xs => simp [consHead]

theorem getLastD_consHead (c : Char) (L : List (List Char)) (h : 2 ≤ L.length) :
    (consHead c L).getLastD [] = L.getLastD [] := by
  cases L with
  | nil => simp at h
  | cons x xs =>
    cases xs with
    | nil => simp at h
    | cons y ys => simp [consHead, List.getLastD_cons]

theorem splitChar_ne_nil (a : Char) (l : List Char) : splitChar a l ≠ [] := by
  induction l with
  | nil => simp [splitChar]
  | cons c rest ih =>
    by_cases h : c == a
    · simp [splitChar, h]
    · simp only [splitChar, h, Bool.false_eq_true, if_false]
      exact consHead_ne_nil c (splitChar a rest)

theorem splitVEq_ne_nil (l : List Char) : splitVEq l ≠ [] := by
  induction l using splitVEq.induct with
  | case1 => simp [splitVEq]
  | case2 c => simp [splitVEq]
  | case3 c d rest h ih => simp [splitVEq, h]
  | case4 c d rest h ih =>
    simp only [splitVEq, h, Bool.false_eq_true, if_false]
    exact consHead_ne_nil c (splitVEq (d :: rest))

theorem splitVEq_no_occ (b : List Char) (hb : containsVEq b = false) : splitVEq b = [b] := by
  induction b using splitVEq.induct with
  | case1 => rfl
  | case2 c => rfl
  | case3 c d rest h ih =>
    exfalso
    simp only [containsVEq, h, Bool.true_or] at hb
    exact Bool.noConfusion hb
  | case4 c d rest h ih =>
    simp only [containsVEq, h, Bool.false_or] at hb
    simp only [splitVEq, h, Bool.false_eq_true, if_false, ih hb, consHead]

theorem containsVEq_append (a b : List Char) :
    containsVEq (a ++ 'v' :: '=' :: b) = true := by
  induction a with
  | nil => simp [containsVEq]
  | cons c a' ih =>
    cases hsplit : a' ++ 'v' :: '=' :: b with
    | nil => exact absurd hsplit (by simp)
    | cons d t =>
      have : containsVEq (d :: t) = true := hsplit ▸ ih
      simp [containsVEq, List.cons_append, hsplit, this]

theorem splitVEq_len2 (l : List Char) (h : containsVEq l = true) :
    2 ≤ (splitVEq l).length := by
  induction l using splitVEq.induct with
  | case1 => simp [containsVEq] at h
  | case2 c => simp [containsVEq] at h
  | case3 c d rest hc ih =>
    simp only [splitVEq, hc, if_true, List.length_cons]
    have := splitVEq_ne_nil rest
    have : 1 ≤ (splitVEq rest).length := List.length_pos.mpr this
    omega
  | case4 c d rest hc ih =>
    simp only [containsVEq, hc, Bool.false_or] at h
    have h2 := ih h
    simp only [splitVEq, hc, Bool.false_eq_true, if_false]
    rw [consHead_length c _ (splitVEq_ne_nil (d :: rest))]
    exact h2

theorem splitVEq_append_last_aux :
    ∀ (n : Nat) (a b : List Char), a.length ≤ n → containsVEq b = false →
      (splitVEq (a ++ 'v' :: '=' :: b)).getLastD [] = b := by
  intro n
  induction n with
  | zero =>
    intro a b ha hb
    have haz : a = [] := List.eq_nil_of_length_eq_zero (Nat.le_zero.mp ha)
    subst haz
    simp only [List.nil_append, splitVEq, beq_self_eq_true, Bool.and_self, if_true,
      splitVEq_no_occ b hb, List.getLastD_cons]
    rfl
  | succ m ih =>
    intro a b ha hb
    cases a with
    | nil =>
      simp only [List.nil_append, splitVEq, beq_self_eq_true, Bool.and_self, if_true,
        splitVEq_no_occ b hb, List.getLastD_cons]
      rfl
    | cons c a' =>
      cases a' with
      | nil =>
        have hcond : (c == 'v' && 'v' == '=') = false := by simp
        simp only [List.cons_append, List.nil_append, splitVEq, hcond, Bool.false_eq_true,
          if_false, beq_self_eq_true, Bool.and_self, if_true, splitVEq_no_occ b hb]
        rw [getLastD_consHead c _ (by simp), List.getLastD_cons, List.getLastD_cons]
        rfl
      | cons d a'' =>
        by_cases hcd : c = 'v' ∧ d = '='
        · obtain ⟨rfl, rfl⟩ := hcd
          have hlen : a''.length ≤ m := by
            simp only [List.length_cons] at ha
            omega
          simp only [List.cons_append, splitVEq, beq_self_eq_true, Bool.and_self, if_true,
            List.getLastD_cons]
          have := ih a'' b hlen hb
          simpa [List.getLastD_cons] using this
        · have hcond : (c == 'v' && d == '=') = false := by
            rcases not_and_or.mp hcd with h | h <;> simp [h]
          have hlen : (d :: a'').length ≤ m := by
            simp only [List.length_cons] at ha ⊢
            omega
          have hocc := containsVEq_append (d :: a'') b
          have h2 := splitVEq_len2 _ hocc
          simp only [List.cons_append, splitVEq, hcond, Bool.false_eq_true, if_false]
          rw [getLastD_consHead c _ (by simpa using h2)]
          exact ih (d :: a'') b hlen hb

theorem splitVEq_append_last (a b : List Char) (hb : containsVEq b = false) :
    (splitVEq (a ++ 'v' :: '=' :: b)).getLastD [] = b :=
  splitVEq_append_last_aux a.length a b le_rfl hb

theorem headD_splitChar (a : Char) (x : List Char) :
    (splitChar a x).headD [] = x.takeWhile (fun c => !(c == a)) := by
  induction x with
  | nil => simp [splitChar]
  | cons c rest ih =>
    cases hc : c == a with
    | true => simp [splitChar, hc, List.takeWhile_cons]
    | false =>
      obtain ⟨y, ys, hys⟩ : ∃ y ys, splitChar a rest = y :: ys := by
        cases h : splitChar a rest with
        | nil => exact absurd h (splitChar_ne_nil a rest)
        | cons y ys => exact ⟨y, ys, rfl⟩
      have hstep : splitChar a (c :: rest) = (c :: y) :: ys := by
        simp [splitChar, hc, hys, consHead]
      rw [hstep, List.headD_cons, List.takeWhile_cons]
      have hca : (!(c == a)) = true := by simp [hc]
      rw [hca, if_pos rfl]
      have h2 := ih
      rw [hys] at h2
      simp only [List.headD_cons] at h2
      rw [h2]

theorem splitChar_no_mem (a : Char) (rest : List Char) (h : a ∉ rest) :
    splitChar a rest = [rest] := by
  induction rest with
  | nil => rfl
  | cons c r ih =>
    have hca : (c == a) = false := by
      simp only [beq_eq_false_iff_ne, ne_eq]
      intro hc
      exact h (hc ▸ List.mem_cons_self c r)
    have har : a ∉ r := fun hm => h (List.mem_cons_of_mem c hm)
    simp only [splitChar, hca, Bool.false_eq_true, if_false, ih har, consHead]

theorem splitChar_mem_len2 (a : Char) (rest : List Char) (h : a ∈ rest) :
    2 ≤ (splitChar a rest).length := by
  induction rest with
  | nil => cases h
  | cons c r ih =>
    by_cases hc : c == a
    · simp only [splitChar, hc, if_true, List.length_cons]
      have : 1 ≤ (splitChar a r).length := List.length_pos.mpr (splitChar_ne_nil a r)
      omega
    · have hcr : a ∈ r := by
        rcases List.mem_cons.mp h with heq | hm
        · exact absurd (beq_iff_eq.mpr heq.symm) hc
        · exact hm
      simp only [splitChar, hc, Bool.false_eq_true, if_false]
      rw [consHead_length c _ (splitChar_ne_nil a r)]
      exact ih hcr

theorem takeWhile_append_last_false (p : Char → Bool) (c : Char) (hc : p c = false) :
    ∀ xs : List Char, List.takeWhile p (xs ++ [c]) = xs.takeWhile p := by
  intro xs
  induction xs with
  | nil => simp [List.takeWhile_cons, hc]
  | cons x xs ih =>
    cases hx : p x <;> simp [List.takeWhile_cons, hx, ih]

theorem takeWhile_all_true (p : Char → Bool) :
    ∀ l : List Char, (∀ x ∈ l, p x = true) → l.takeWhile p = l := by
  intro l
  induction l with
  | nil => intro _; rfl
  | cons x xs ih =>
    intro h
    have hx := h x (List.mem_cons_self x xs)
    simp only [List.takeWhile_cons, hx, if_true]
    rw [ih (fun y hy => h y (List.mem_cons_of_mem x hy))]

theorem takeWhile_append_stops (p : Char → Bool) :
    ∀ (xs ys : List Char), (∃ x, x ∈ xs ∧ p x = false) →
      List.takeWhile p (xs ++ ys) = xs.takeWhile p := by
  intro xs
  induction xs with
  | nil =>
    intro ys h
    obtain ⟨x, hx, _⟩ := h
    cases hx
  | cons x xs ih =>
    intro ys h
    cases hx : p x with
    | false => simp [List.takeWhile_cons, hx]
    | true =>
      obtain ⟨w, hw, hpw⟩ := h
      have hwxs : w ∈ xs := by
        rcases List.mem_cons.mp hw with heq | hm
        · rw [heq] at hpw; rw [hpw] at hx; cases hx
        · exact hm
      simp [List.takeWhile_cons, hx, ih ys ⟨w, hwxs, hpw⟩]

theorem getLastD_splitChar (a : Char) (m : List Char) :
    (splitChar a m).getLastD [] =
      (m.reverse.takeWhile (fun c => !(c == a))).reverse := by
  induction m with
  | nil => simp [splitChar]
  | cons c rest ih =>
    cases hc : c == a with
    | true =>
      have hpc : (fun x : Char => !(x == a)) c = false := by simp [hc]
      have hstep : splitChar a (c :: rest) = [] :: splitChar a rest := by
        simp [splitChar, hc]
      rw [hstep, List.getLastD_cons, ih, List.reverse_cons,
        takeWhile_append_last_false (fun x : Char => !(x == a)) c hpc rest.reverse]
    | false =>
      have hstep : splitChar a (c :: rest) = consHead c (splitChar a rest) := by
        simp [splitChar, hc]
      by_cases hm : a ∈ rest
      · have hpa : (fun x : Char => !(x == a)) a = false := by simp
        rw [hstep, getLastD_consHead c _ (splitChar_mem_len2 a rest hm), ih,
          List.reverse_cons,
          takeWhile_append_stops (fun x : Char => !(x == a)) rest.reverse [c]
            ⟨a, List.mem_reverse.mpr hm, hpa⟩]
      · have hall : ∀ x ∈ rest.reverse ++ [c], (fun y : Char => !(y == a)) x = true := by
          intro x hx
          rcases List.mem_append.mp hx with h | h
          · have hxr : x ∈ rest := List.mem_reverse.mp h
            simp only [Bool.not_eq_true', beq_eq_false_iff_ne, ne_eq]
            intro hxa
            exact absurd (hxa ▸ hxr) hm
          · have hxc : x = c := by simpa using h
            subst hxc
            simp [hc]
        rw [hstep, splitChar_no_mem a rest hm, List.reverse_cons,
          takeWhile_all_true (fun y : Char => !(y == a)) (rest.reverse ++ [c]) hall]
        simp [consHead, List.getLastD_cons]

/-! Lemmas about the identifier-token matcher. -/

theorem mem_takeWhile_p (p : Char → Bool) :
    ∀ (l : List Char) c, c ∈ l.takeWhile p → p c = true := by
  intro l
  induction l with
  | nil => intro c h; simp at h
  | cons x xs ih =>
    intro c h
    rw [List.takeWhile_cons] at h
    cases hx : p x with
    | false => rw [hx] at h; simp at h
    | true =>
      rw [hx] at h
      simp only [if_true] at h
      rcases List.mem_cons.mp h with heq | hm
      · exact heq ▸ hx
      · exact ih c hm

theorem tryBrowseAt_shape (s : List Char) (cap : List Char) (h : tryBrowseAt s = some cap) :
    ∃ r, cap = 'U' :: 'C' :: r ∧ r ≠ [] ∧ ∀ c ∈ r, isWordChar c = true := by
  cases hsp : stripPre browseLit s with
  | none =>
    simp only [tryBrowseAt, hsp] at h
    exact Option.noConfusion h
  | some rest =>
    simp only [tryBrowseAt, hsp] at h
    by_cases hcond : rest.takeWhile isWordChar ≠ [] ∧
        (rest.dropWhile isWordChar).headD ' ' = '"'
    · rw [if_pos hcond] at h
      injection h with hcap
      exact ⟨rest.takeWhile isWordChar, hcap.symm, hcond.1,
        fun c hc => mem_takeWhile_p isWordChar rest c hc⟩
    · rw [if_neg hcond] at h
      exact Option.noConfusion h

theorem browseScan_shape :
    ∀ (l : List Char) (cap : List Char), browseScan l = some cap →
      ∃ r, cap = 'U' :: 'C' :: r ∧ r ≠ [] ∧ ∀ c ∈ r, isWordChar c = true := by
  intro l
  induction l with
  | nil =>
    intro cap h
    simp only [browseScan] at h
    exact Option.noConfusion h
  | cons c rest ih =>
    intro cap h
    cases ht : tryBrowseAt (c :: rest) with
    | some cap' =>
      simp only [browseScan, ht] at h
      injection h with hc
      exact hc ▸ tryBrowseAt_shape (c :: rest) cap' ht
    | none =>
      simp only [browseScan, ht] at h
      exact ih cap h

theorem extract_browse_id_shape (content : String) (id : String)
    (h : extract_browse_id content = some id) :
    ∃ r, id = String.mk ('U' :: 'C' :: r) ∧ r ≠ [] ∧ ∀ c ∈ r, isWordChar c = true := by
  simp only [extract_browse_id] at h
  cases hb : browseScan content.data with
  | none => rw [hb] at h; exact Option.noConfusion h
  | some cap =>
    rw [hb] at h
    obtain ⟨r, hr, hne, hw⟩ := browseScan_shape content.data cap hb
    injection h with hid
    exact ⟨r, by rw [← hid, hr], hne, hw⟩

theorem resolve_username_shape (page : String → Option String) (u : String) (id : String)
    (log : List String) (h : resolve_username_to_channel_id page u = (some id, log)) :
    ∃ r, id = String.mk ('U' :: 'C' :: r) ∧ r ≠ [] ∧ ∀ c ∈ r, isWordChar c = true := by
  have h1 : (resolve_username_to_channel_id page u).1 = some id := by rw [h]
  simp only [resolve_username_to_channel_id, fetch_channel_page] at h1
  cases hp : page (baseAt ++ u) with
  | none => rw [hp] at h1; exact Option.noConfusion h1
  | some content =>
    simp only [hp] at h1
    by_cases hce : content = strEmpty
    · rw [if_pos hce] at h1; exact Option.noConfusion h1
    · rw [if_neg hce] at h1
      exact extract_browse_id_shape content id h1

theorem resolve_custom_shape (page : String → Option String) (u : String) (id : String)
    (log : List String) (h : resolve_custom_url_to_channel_id page u = (some id, log)) :
    ∃ r, id = String.mk ('U' :: 'C' :: r) ∧ r ≠ [] ∧ ∀ c ∈ r, isWordChar c = true := by
  have h1 : (resolve_custom_url_to_channel_id page u).1 = some id := by rw [h]
  simp only [resolve_custom_url_to_channel_id, fetch_channel_page] at h1
  cases hp : page (baseC ++ u) with
  | none => rw [hp] at h1; exact Option.noConfusion h1
  | some content =>
    simp only [hp] at h1
    by_cases hce : content = strEmpty
    · rw [if_pos hce] at h1; exact Option.noConfusion h1
    · rw [if_neg hce] at h1
      exact extract_browse_id_shape content id h1

/-! Claim theorems. -/

/-- C2: the claim says an entry with no video-identifier field and an
empty link still yields a `VideoRecord` with an empty `videoId`.  The
code instead derives `None` from the empty link and passes it to the
required `str` field `video_id` of the pydantic model, which raises a
validation error: evaluated here at that failing input. -/
theorem c2_empty_link_entry_rejected :
    parse_entry_to_video entryEmptyLink = Except.error ValErr.missingVideoId := rfl

/-- C5: `get_latest_videos` equals the concatenation, in channel order,
of the successfully fetched channels' video lists; a channel whose fetch
raises is excluded without aborting the rest of the batch (the function
is total, so nothing propagates). -/
theorem c5_channel_failure_isolated
    (fetch : String → Except ScrapeErr (List ChannelVideo)) (ids : List String) :
    get_latest_videos fetch ids = (ids.filterMap (fun c => (fetch c).toOption)).flatten ∧
    ∀ (pre : List String) (c : String) (post : List String) (e : ScrapeErr),
      fetch c = Except.error e →
      get_latest_videos fetch (pre ++ c :: post) =
        get_latest_videos fetch pre ++ get_latest_videos fetch post := by
  constructor
  · induction ids with
    | nil => simp [get_latest_videos]
    | cons c cs ih =>
      cases h : fetch c with
      | ok vs => simp [get_latest_videos, h, Except.toOption, ih]
      | error e => simp [get_latest_videos, h, Except.toOption, ih]
  · intro pre c post e he
    rw [get_latest_videos_append]
    have : get_latest_videos fetch (c :: post) = get_latest_videos fetch post := by
      simp [get_latest_videos, he]
    rw [this]

/-- C5 witness: a concrete batch where the middle channel's fetch raises
a transport error; its videos are excluded and the others kept. -/
theorem c5_channel_failure_isolated_witness :
    fetchFailA chanA = Except.error ScrapeErr.requestError ∧
    get_latest_videos fetchFailA ([chanB] ++ chanA :: [chanB]) =
      get_latest_videos fetchFailA [chanB] ++ get_latest_videos fetchFailA [chanB] :=
  ⟨rfl, (c5_channel_failure_isolated fetchFailA ([chanB] ++ chanA :: [chanB])).2
    [chanB] chanA [chanB] ScrapeErr.requestError rfl⟩

/-- C8: whatever error the provider raises, including the catch-all
`otherError` case, `get_transcript` returns `none` rather than
propagating; totality of the embedding reflects that no exception
escapes. -/
theorem c8_provider_error_degrades
    (provider : String → Except TxErr (List String)) (video_id : String) (e : TxErr)
    (h : provider video_id = Except.error e) :
    get_transcript provider video_id = none := by
  simp [get_transcript, h]

/-- C8 witness at a concrete provider raising `VideoUnavailable`. -/
theorem c8_provider_error_degrades_witness :
    providerUnavailable exVidA = Except.error TxErr.videoUnavailable ∧
    get_transcript providerUnavailable exVidA = none :=
  ⟨rfl, c8_provider_error_degrades providerUnavailable exVidA TxErr.videoUnavailable rfl⟩

/-- C4 counterexample: a provider success carrying zero caption snippets
makes `get_transcript` return a present `Transcript` whose `text` is the
empty string, contradicting the claim that a returned `Transcript`
always has non-empty text. -/
theorem c4_counterexample :
    get_transcript providerEmptyList exVidA = some (Transcript.mk strEmpty) ∧
    (Transcript.mk strEmpty).text = strEmpty := ⟨rfl, rfl⟩

/-- C4 amended: when the fetcher returns a `Transcript` its text is the
newline-join of the provider's snippet texts, and that text is empty
exactly when the snippet list is empty or is a single empty snippet: in
particular a provider success carrying no snippets yields a present
transcript with empty text, so absence signals only a failed fetch. -/
theorem c4_text_join_of_snippets
    (provider : String → Except TxErr (List String)) (vid : String) (snips : List String)
    (h : provider vid = Except.ok snips) :
    get_transcript provider vid = some (Transcript.mk (joinNl snips)) ∧
    (joinNl snips = strEmpty ↔ snips = [] ∨ snips = [strEmpty]) := by
  exact ⟨by simp [get_transcript, h], joinNl_eq_empty_iff snips⟩

/-- C4 amended witness: a concrete two-snippet provider response, whose
joined text is non-empty by the emptiness characterization. -/
theorem c4_text_join_of_snippets_witness :
    providerHolaMundo exVidA = Except.ok [segHola, segMundo] ∧
    get_transcript providerHolaMundo exVidA = some (Transcript.mk (joinNl [segHola, segMundo])) ∧
    (joinNl [segHola, segMundo] = strEmpty ↔
      ([segHola, segMundo] = [] ∨ [segHola, segMundo] = [strEmpty])) ∧
    joinNl [segHola, segMundo] ≠ strEmpty :=
  ⟨rfl,
    (c4_text_join_of_snippets providerHolaMundo exVidA [segHola, segMundo] rfl).1,
    (c4_text_join_of_snippets providerHolaMundo exVidA [segHola, segMundo] rfl).2,
    fun h =>
      absurd ((c4_text_join_of_snippets providerHolaMundo exVidA [segHola, segMundo] rfl).2.mp h)
        (by decide)⟩

/-- C3 counterexample: the class orchestrator
`get_videos_with_transcripts` issues a transcript fetch for a video with
an empty `videoId` (the call log of the run contains the empty id),
contradicting the claim that no fetch call is performed for such
videos; the pairing comes out absent only because the provider errors. -/
theorem c3_counterexample :
    get_videos_with_transcripts fetchOneNoId providerUnavailable [chanA] =
      ([(videoNoId, none)], [strEmpty]) ∧
    strEmpty ∈ (get_videos_with_transcripts fetchOneNoId providerUnavailable [chanA]).2 :=
  ⟨rfl, by decide⟩

/-- C3 amended: the class orchestrator issues one transcript fetch for
every video in the concatenated sequence, empty id or not (its call log
is exactly the video-id list); the service-layer `get_video_transcripts`
is the function that pairs an empty-id video with an absent transcript
and never issues a fetch for an empty id. -/
theorem c3_empty_id_skip
    (fetch : String → Except ScrapeErr (List ChannelVideo))
    (provider : String → Except TxErr (List String)) (ids : List String) :
    ((∀ v p, (v, p) ∈ (get_video_transcripts fetch provider ids).1 →
        v.video_id = strEmpty → p = none) ∧
     (∀ c, c ∈ (get_video_transcripts fetch provider ids).2 → c ≠ strEmpty)) ∧
    (get_videos_with_transcripts fetch provider ids).2 =
      (get_latest_videos fetch ids).map (fun v => v.video_id) := by
  refine ⟨?_, ?_⟩
  · exact service_pair_guard provider (get_latest_videos fetch ids)
  · exact pair_with_transcripts_log provider (get_latest_videos fetch ids)

/-- C3 amended witness: a concrete batch containing an empty-id video;
the service pairing for it is absent and the empty id never appears in
the service call log. -/
theorem c3_empty_id_skip_witness :
    (videoNoId, (none : Option Transcript)) ∈
      (get_video_transcripts fetchMixed providerUnavailable [chanA]).1 ∧
    videoNoId.video_id = strEmpty ∧
    (none : Option Transcript) = none :=
  ⟨by decide, rfl,
    (c3_empty_id_skip fetchMixed providerUnavailable [chanA]).1.1 videoNoId none
      (by decide) rfl⟩

/-- C1 (spec-modelled): the language-fallback policy — preferred
languages attempted in caller order, first track found returned with its
segments joined by single newlines; when no preferred language has a
track, fall back to the first translation-eligible track; provider
errors degrade to absent; and the concrete en/es example of the claim. -/
theorem c1_language_fallback :
    (∀ (tracks : List CaptionTrack) (pre : List String) (l : String) (post : List String)
       (t : CaptionTrack),
       (∀ l', l' ∈ pre → tracks.find? (fun tr => tr.language == l') = none) →
       tracks.find? (fun tr => tr.language == l) = some t →
       fetchTranscript (Except.ok tracks) (pre ++ l :: post) = some (joinNl t.segments)) ∧
    (∀ (tracks : List CaptionTrack) (langs : List String),
       (∀ l, l ∈ langs → tracks.find? (fun tr => tr.language == l) = none) →
       fetchTranscript (Except.ok tracks) langs =
         (tracks.find? (fun tr => tr.translatable)).map (fun t => joinNl t.segments)) ∧
    (∀ (e : TxErr) (langs : List String), fetchTranscript (Except.error e) langs = none) ∧
    fetchTranscript (Except.ok [trackEs]) [langEn, langEs] = some esJoined := by
  refine ⟨?_, ?_, fun _ _ => rfl, rfl⟩
  · intro tracks pre l post t hpre hl
    simp [fetchTranscript, findPreferredTrack_first tracks pre l post t hpre hl]
  · intro tracks langs h
    simp only [fetchTranscript, findPreferredTrack_none tracks langs h]
    cases hf : tracks.find? (fun t => t.translatable) <;> simp [hf]

/-- C1 witness: preferred languages en then es against a provider
listing only a Spanish track; en finds nothing, es finds the track. -/
theorem c1_language_fallback_witness :
    (∀ l', l' ∈ [langEn] → [trackEs].find? (fun tr => tr.language == l') = none) ∧
    [trackEs].find? (fun tr => tr.language == langEs) = some trackEs ∧
    fetchTranscript (Except.ok [trackEs]) ([langEn] ++ langEs :: []) =
      some (joinNl trackEs.segments) :=
  ⟨by decide, by decide,
    c1_language_fallback.1 [trackEs] [langEn] langEs [] trackEs (by decide) (by decide)⟩

/-- C6: on a successful feed fetch the result has at most `cap` records,
exactly `min cap (number of entries)` of them, each the parse of the
corresponding entry in document order (no re-sorting); an empty (or
unparseable, hence empty) entry list yields zero results, not an
error. -/
theorem c6_feed_cap_and_order (entries : List FeedEntry) (cap : Nat) :
    (∀ vs, fetch_channel_feed (Except.ok entries) cap = Except.ok vs →
       vs.length ≤ cap ∧ vs.length = min cap entries.length ∧
       ∀ i (h1 : i < entries.length) (h2 : i < vs.length),
         parse_entry_to_video (entries.get ⟨i, h1⟩) = Except.ok (vs.get ⟨i, h2⟩)) ∧
    fetch_channel_feed (Except.ok []) cap = Except.ok [] := by
  constructor
  · intro vs h
    cases hm : mapME parse_entry_to_video (entries.take cap) with
    | error e =>
      simp only [fetch_channel_feed, hm] at h
      exact Except.noConfusion h
    | ok bs =>
      simp only [fetch_channel_feed, hm] at h
      injection h with hb
      rw [hb] at hm
      obtain ⟨hlen, hget⟩ := mapME_ok parse_entry_to_video (entries.take cap) vs hm
      have hlen' : vs.length = min cap entries.length := by
        rw [hlen, List.length_take]
      refine ⟨by omega, hlen', ?_⟩
      intro i h1 h2
      have h3 : i < (entries.take cap).length := by rw [← hlen]; exact h2
      have hpt := hget i h3 h2
      rwa [take_get entries cap i h3 h1] at hpt
  · simp [fetch_channel_feed, mapME]

/-- C6 witness: one concrete entry, cap five. -/
theorem c6_feed_cap_and_order_witness :
    fetch_channel_feed (Except.ok [entryA]) 5 = Except.ok [videoA] ∧
    [videoA].length ≤ 5 :=
  ⟨rfl, ((c6_feed_cap_and_order [entryA] 5).1 [videoA] rfl).1⟩

/-- C7 counterexample: for the link `https://youtube.com/abc?rev=7` no
`v=` query parameter exists (the only parameter key is `rev`), so the
claim prescribes the final path segment; the code's substring test
`"v=" in link` fires inside `rev=7` and yields `7` instead. -/
theorem c7_counterexample :
    extract_video_id_from_link cexLink = some cexCode ∧
    specClaimExtract cexLink.data = some cexSpec.data ∧
    cexCode ≠ cexSpec := ⟨by decide, by decide, by decide⟩

/-- C7 amended: the derivation is substring-based, not query-parameter
based — when `v=` occurs anywhere in the link the videoId is the text
after the last occurrence of `v=` up to the next `&`; otherwise it is
the final path segment of the link after stripping trailing slashes
(empty link: no id); the claim's own example `watch?v=XYZ&foo=bar`
still yields `XYZ`. -/
theorem c7_video_id_extraction :
    (∀ (a b : List Char), containsVEq b = false →
       extract_video_id_from_link_l (a ++ 'v' :: '=' :: b) =
         some (b.takeWhile (fun c => !(c == '&')))) ∧
    (∀ l : List Char, containsVEq l = false → l ≠ [] →
       extract_video_id_from_link_l l =
         some (((l.reverse.dropWhile (fun c => c == '/')).takeWhile
           (fun c => !(c == '/'))).reverse)) ∧
    extract_video_id_from_link exWatchLink = some exXYZ := by
  refine ⟨?_, ?_, by decide⟩
  · intro a b hb
    have hocc := containsVEq_append a b
    simp only [extract_video_id_from_link_l, hocc, if_true]
    rw [splitVEq_append_last a b hb, headD_splitChar]
  · intro l hno hne
    simp only [extract_video_id_from_link_l, hno, Bool.false_eq_true, if_false, hne,
      if_false]
    rw [getLastD_splitChar]
    simp [rstripSlash]

/-- C7 amended witness: the two branches at concrete links. -/
theorem c7_video_id_extraction_witness :
    containsVEq linkPartB.data = false ∧
    extract_video_id_from_link_l (linkPartA.data ++ 'v' :: '=' :: linkPartB.data) =
      some (linkPartB.data.takeWhile (fun c => !(c == '&'))) :=
  ⟨by decide, c7_video_id_extraction.1 linkPartA.data linkPartB.data (by decide)⟩

/-- C9: each network-backed resolver issues exactly one page fetch; a
failed fetch or a page body without the identifier token yields an
absent result, not an exception; and `get_channel_id_from_url` routes
each of the handle, custom-name and legacy-username shapes to those
resolvers (handle and legacy username share the username resolver). -/
theorem c9_resolution_single_fetch (page : String → Option String) (u : String) :
    ((resolve_username_to_channel_id page u).2.length = 1 ∧
     (resolve_custom_url_to_channel_id page u).2.length = 1) ∧
    (page (baseAt ++ u) = none → (resolve_username_to_channel_id page u).1 = none) ∧
    (∀ body, page (baseAt ++ u) = some body → extract_browse_id body = none →
       (resolve_username_to_channel_id page u).1 = none) ∧
    (page (baseC ++ u) = none → (resolve_custom_url_to_channel_id page u).1 = none) ∧
    (∀ body, page (baseC ++ u) = some body → extract_browse_id body = none →
       (resolve_custom_url_to_channel_id page u).1 = none) ∧
    (∀ url : String, search_channel_id (rstripSlash url.data) = none →
       ((∀ name, search_handle (rstripSlash url.data) = some name →
           get_channel_id_from_url page url =
             resolve_username_to_channel_id page (String.mk name)) ∧
        (∀ cname, search_handle (rstripSlash url.data) = none →
           search_custom (rstripSlash url.data) = some cname →
           get_channel_id_from_url page url =
             resolve_custom_url_to_channel_id page (String.mk cname)) ∧
        (∀ name, search_handle (rstripSlash url.data) = none →
           search_custom (rstripSlash url.data) = none →
           search_user (rstripSlash url.data) = some name →
           get_channel_id_from_url page url =
             resolve_username_to_channel_id page (String.mk name)))) := by
  refine ⟨⟨rfl, rfl⟩, ?_, ?_, ?_, ?_, ?_⟩
  · intro h
    simp [resolve_username_to_channel_id, fetch_channel_page, h]
  · intro body hb hex
    simp only [resolve_username_to_channel_id, fetch_channel_page, hb]
    by_cases hbe : body = strEmpty
    · simp [hbe]
    · simp [hbe, hex]
  · intro h
    simp [resolve_custom_url_to_channel_id, fetch_channel_page, h]
  · intro body hb hex
    simp only [resolve_custom_url_to_channel_id, fetch_channel_page, hb]
    by_cases hbe : body = strEmpty
    · simp [hbe]
    · simp [hbe, hex]
  · intro url hch
    refine ⟨?_, ?_, ?_⟩
    · intro name hh
      simp [get_channel_id_from_url, hch, hh]
    · intro cname hh hc
      simp [get_channel_id_from_url, hch, hh, hc]
    · intro name hh hc hu
      simp [get_channel_id_from_url, hch, hh, hc, hu]

/-- C9 witness: a handle-form reference against a failing page oracle:
one fetch issued, absent result, no exception. -/
theorem c9_resolution_single_fetch_witness :
    (resolve_username_to_channel_id pageFails handleName).2.length = 1 ∧
    pageFails (baseAt ++ handleName) = none ∧
    (resolve_username_to_channel_id pageFails handleName).1 = none :=
  ⟨(c9_resolution_single_fetch pageFails handleName).1.1, rfl,
    (c9_resolution_single_fetch pageFails handleName).2.1 rfl⟩

/-- C10: every identifier that `get_channel_id_from_url` obtains through
a network lookup (the fetch log is nonempty) has the `BROWSE_ID_PATTERN`
shape `UC` followed by at least one word character; an identifier taken
from a direct `/channel/` path segment is returned verbatim with no such
constraint, shown at a concrete non-`UC` channel URL resolved with zero
fetches. -/
theorem c10_network_ids_uc_shaped :
    (∀ (page : String → Option String) (url id : String) (log : List String),
       get_channel_id_from_url page url = (some id, log) → log ≠ [] →
       ∃ r, id = String.mk ('U' :: 'C' :: r) ∧ r ≠ [] ∧ ∀ c ∈ r, isWordChar c = true) ∧
    (get_channel_id_from_url pageFails chanUrlPlain = (some plainId, []) ∧
     plainId.data.take 2 ≠ ['U', 'C']) := by
  refine ⟨?_, by decide, by decide⟩
  intro page url id log h hlog
  cases hch : search_channel_id (rstripSlash url.data) with
  | some cid =>
    have heq : get_channel_id_from_url page url = (some (String.mk cid), []) := by
      simp [get_channel_id_from_url, hch]
    rw [heq] at h
    have hl : ([] : List String) = log := congrArg Prod.snd h
    exact absurd hl.symm hlog
  | none =>
    cases hh : search_handle (rstripSlash url.data) with
    | some name =>
      have heq : get_channel_id_from_url page url =
          resolve_username_to_channel_id page (String.mk name) := by
        simp [get_channel_id_from_url, hch, hh]
      rw [heq] at h
      exact resolve_username_shape page (String.mk name) id log h
    | none =>
      cases hc : search_custom (rstripSlash url.data) with
      | some cname =>
        have heq : get_channel_id_from_url page url =
            resolve_custom_url_to_channel_id page (String.mk cname) := by
          simp [get_channel_id_from_url, hch, hh, hc]
        rw [heq] at h
        exact resolve_custom_shape page (String.mk cname) id log h
      | none =>
        cases hu : search_user (rstripSlash url.data) with
        | some name =>
          have heq : get_channel_id_from_url page url =
              resolve_username_to_channel_id page (String.mk name) := by
            simp [get_channel_id_from_url, hch, hh, hc, hu]
          rw [heq] at h
          exact resolve_username_shape page (String.mk name) id log h
        | none =>
          have heq : get_channel_id_from_url page url = (none, []) := by
            simp [get_channel_id_from_url, hch, hh, hc, hu]
          rw [heq] at h
          have hn : (none : Option String) = some id := congrArg Prod.fst h
          exact Option.noConfusion hn

/-- C10 witness: a handle reference resolved through a page whose body
carries the token `UCnews7`; the fetch log is nonempty and the obtained
identifier has the `UC` shape. -/
theorem c10_network_ids_uc_shaped_witness :
    get_channel_id_from_url pageUC handleUrl = (some ucIdNews, ucLog) ∧ ucLog ≠ [] ∧
    ∃ r, ucIdNews = String.mk ('U' :: 'C' :: r) ∧ r ≠ [] ∧ ∀ c ∈ r, isWordChar c = true :=
  ⟨by decide, by decide,
    c10_network_ids_uc_shaped.1 pageUC handleUrl ucIdNews ucLog (by decide) (by decide)⟩

end DailyNews
